import Mathlib

/-!
Verification development for the tagged generational-arena core
(`id_type.rs` of `egui_node_graph`).

The crate wraps a generational slot store (`slotmap::SlotMap` /
`slotmap::SecondaryMap`) with an instance tag (`MapId = u128`) that is
compared on every access.  The wrapper code (`UniqueSlotmap`,
`UniqueSecondaryMap`, `UniqueId`, `AnyParameterId`) is embedded directly
from the source; the underlying slot store, whose code is not part of
this repository, is modelled from the specification of the Generational
Slot Store (slots occupied/vacant with a generation counter, free list,
generation bumped when a slot is vacated).
-/

namespace EguiNodeGraph

/-- The compile-time key kind (`NodeIdInternal` / `InputIdInternal` /
`OutputIdInternal` in the source, produced by `slotmap::new_key_type!`). -/
inductive KeyKind where
  | node
  | input
  | output
deriving DecidableEq, Repr

/-- Modelled from the spec: the `InternalKey` of the Generational Slot
Store — a pair of slot index and generation (`KeyData` of the `slotmap`
crate, whose code is outside this repository). -/
structure KeyData where
  idx : Nat
  gen : Nat
deriving DecidableEq, Repr

/-- Source `MapId = u128`.  It is only ever compared for
equality, so it is modelled as a natural number. -/
abbrev MapId := Nat

/-- Source `UniqueId<K>(K, MapId)`: an internal slot-store key together with
the instance tag of the map that minted it.  The phantom `KeyKind`
mirrors the compile-time discriminator `K : Key`. -/
structure UniqueId (κ : KeyKind) where
  key : KeyData
  mapId : MapId
deriving DecidableEq, Repr

abbrev NodeId := UniqueId .node
abbrev InputId := UniqueId .input
abbrev OutputId := UniqueId .output

/-- Modelled from the spec: one slot of the Generational Slot Store,
`occupied{value, generation} | vacant{next_free, generation}`.  A slot
is occupied iff `val` is `some`; the free list is kept separately, so
vacant slots need no `next_free` field. -/
structure Slot (V : Type) where
  gen : Nat
  val : Option V
deriving DecidableEq, Repr

/-- Modelled from the spec: the Generational Slot Store
(`slotmap::SlotMap`, whose code is outside this repository): a vector of
slots plus an explicit free list of vacant slot indices. -/
structure SlotMap (V : Type) where
  slots : List (Slot V)
  free : List Nat
deriving DecidableEq, Repr

namespace SlotMap

/-- Modelled from the spec: `get(key)` — `None` on vacant slot or
generation mismatch. -/
def get {V : Type} (m : SlotMap V) (k : KeyData) : Option V :=
  match m.slots[k.idx]? with
  | some s => if s.gen = k.gen then s.val else none
  | none => none

/-- Modelled from the spec: `contains(key)`. -/
def contains_key {V : Type} (m : SlotMap V) (k : KeyData) : Bool :=
  (m.get k).isSome

/-- Modelled from the spec: insert with a self-referential factory — on
insert, reuse a free-list slot (its generation was already bumped at
removal) or append a fresh slot at generation 0.  Returns the new key
and the updated store; the factory is applied to the final key. -/
def insert_with_key {V : Type} (m : SlotMap V) (f : KeyData → V) :
    KeyData × SlotMap V :=
  match m.free with
  | i :: rest =>
      match m.slots[i]? with
      | some s =>
          let k : KeyData := ⟨i, s.gen⟩
          (k, ⟨m.slots.set i ⟨s.gen, some (f k)⟩, rest⟩)
      | none =>
          -- unreachable when the free list only holds in-range indices
          let k : KeyData := ⟨m.slots.length, 0⟩
          (k, ⟨m.slots ++ [⟨0, some (f k)⟩], rest⟩)
  | [] =>
      let k : KeyData := ⟨m.slots.length, 0⟩
      (k, ⟨m.slots ++ [⟨0, some (f k)⟩], []⟩)

/-- Modelled from the spec: `insert(value)`. -/
def insert {V : Type} (m : SlotMap V) (v : V) : KeyData × SlotMap V :=
  m.insert_with_key (fun _ => v)

/-- Modelled from the spec: `remove(key)` — vacates the slot, bumps its
generation, pushes the index onto the free list; `None` (store
unchanged) on vacant slot or generation mismatch. -/
def remove {V : Type} (m : SlotMap V) (k : KeyData) :
    Option V × SlotMap V :=
  match m.slots[k.idx]? with
  | some s =>
      if s.gen = k.gen then
        match s.val with
        | some v =>
            (some v, ⟨m.slots.set k.idx ⟨s.gen + 1, none⟩, k.idx :: m.free⟩)
        | none => (none, m)
      else (none, m)
  | none => (none, m)

/-- Modelled from the spec: the occupied `(key, value)` pairs, in slot
order. -/
def entries {V : Type} (m : SlotMap V) : List (KeyData × V) :=
  m.slots.enum.filterMap
    (fun p => p.2.val.map (fun v => (⟨p.1, p.2.gen⟩, v)))

/-- Modelled from the spec: the keys of the occupied slots. -/
def keys {V : Type} (m : SlotMap V) : List KeyData :=
  m.entries.map Prod.fst

/-- Modelled from the spec: the number of occupied slots (`len`). -/
def len {V : Type} (m : SlotMap V) : Nat :=
  m.slots.countP (fun s => s.val.isSome)

end SlotMap

/-- Source `UniqueSlotmap<K, V> { map: SlotMap<K::InnerKey, V>, id: MapId }`. -/
structure UniqueSlotmap (κ : KeyKind) (V : Type) where
  map : SlotMap V
  id : MapId
deriving DecidableEq, Repr

/-- Source `UniqueSecondaryMap<K, V>` holding a `SecondaryMap` and a `MapId`.
The inner `slotmap::SecondaryMap` (code outside this repository) is
modelled from the spec as a sparse map `InternalKey → V`, represented as
an association list with at most one binding per key. -/
structure UniqueSecondaryMap (κ : KeyKind) (V : Type) where
  entries : List (KeyData × V)
  id : MapId
deriving DecidableEq, Repr

namespace UniqueSlotmap

/-- Source `check_key`: strip the tag when it equals this map's `id`, else `None`. -/
def check_key {κ V} (m : UniqueSlotmap κ V) (k : UniqueId κ) :
    Option KeyData :=
  if k.mapId = m.id then some k.key else none

/-- Source `get`: `check_key` then the slot store's `get`. -/
def get {κ V} (m : UniqueSlotmap κ V) (index : UniqueId κ) : Option V :=
  (m.check_key index).bind (fun key => m.map.get key)

/-- Source `get_mut` reads the same entry as `get` (the returned reference is
the caller's to mutate; the lookup itself is the embedded part). -/
def get_mut {κ V} (m : UniqueSlotmap κ V) (index : UniqueId κ) : Option V :=
  (m.check_key index).bind (fun key => m.map.get key)

/-- Source `remove`: `check_key` then the slot store's `remove`; returns the
removed value (if any) and the updated map. -/
def remove {κ V} (m : UniqueSlotmap κ V) (index : UniqueId κ) :
    Option V × UniqueSlotmap κ V :=
  match m.check_key index with
  | none => (none, m)
  | some key =>
      let r := m.map.remove key
      (r.1, ⟨r.2, m.id⟩)

/-- Source `insert_with_key`: insert into the slot store with a factory that
receives the final tagged handle; returns that handle and the updated
map. -/
def insert_with_key {κ V} (m : UniqueSlotmap κ V) (f : UniqueId κ → V) :
    UniqueId κ × UniqueSlotmap κ V :=
  let r := m.map.insert_with_key (fun k => f ⟨k, m.id⟩)
  (⟨r.1, m.id⟩, ⟨r.2, m.id⟩)

/-- Source `insert(value)` = `insert_with_key(|_| value)`. -/
def insert {κ V} (m : UniqueSlotmap κ V) (value : V) :
    UniqueId κ × UniqueSlotmap κ V :=
  m.insert_with_key (fun _ => value)

/-- Source `contains_key`: tag check, then the slot store's `contains`. -/
def contains_key {κ V} (m : UniqueSlotmap κ V) (index : UniqueId κ) : Bool :=
  match m.check_key index with
  | some key => m.map.contains_key key
  | none => false

/-- Source `Index::index`, the panicking accessor.  `.error` is the panic
path: the tag-mismatch panic of the wrapper, or the slot store's own
panic on a missing key. -/
def index {κ V} (m : UniqueSlotmap κ V) (i : UniqueId κ) : Except String V :=
  match m.check_key i with
  | some key =>
      match m.map.get key with
      | some v => .ok v
      | none => .error "invalid SlotMap key used"
  | none => .error "Attempted to access key from another map"

/-- Source `keys()`: the slot store's keys, each tagged with this map's `id`. -/
def keys {κ V} (m : UniqueSlotmap κ V) : List (UniqueId κ) :=
  m.map.keys.map (fun k => ⟨k, m.id⟩)

/-- Source `iter()`: the slot store's occupied entries, keys tagged with this
map's `id`. -/
def iter {κ V} (m : UniqueSlotmap κ V) : List (UniqueId κ × V) :=
  m.map.entries.map (fun p => (⟨p.1, m.id⟩, p.2))

/-- Source `iter_mut()` yields the same tagged keys and values as `iter()`
(mutation of the yielded references is the caller's). -/
def iter_mut {κ V} (m : UniqueSlotmap κ V) : List (UniqueId κ × V) :=
  let id := m.id
  m.map.entries.map (fun p => (⟨p.1, id⟩, p.2))

/-- Source `len` of the underlying store. -/
def len {κ V} (m : UniqueSlotmap κ V) : Nat :=
  m.map.len

/-- Source `#[derive(Clone)]` on `UniqueSlotmap`: field-wise clone, producing a
structurally equal map — in particular the `id` field is copied, not
re-minted. -/
def clone {κ V} (m : UniqueSlotmap κ V) : UniqueSlotmap κ V :=
  ⟨m.map, m.id⟩

end UniqueSlotmap

namespace UniqueSecondaryMap

/-- Source `new_from_key`: an empty secondary map carrying the bound primary
map's `id`. -/
def new_from_key {κ V V2} (m : UniqueSlotmap κ V2) : UniqueSecondaryMap κ V :=
  ⟨[], m.id⟩

/-- Source `check_key`, identical to the primary map's. -/
def check_key {κ V} (m : UniqueSecondaryMap κ V) (k : UniqueId κ) :
    Option KeyData :=
  if k.mapId = m.id then some k.key else none

/-- Sparse-map lookup on the inner association list. -/
def inner_get {κ V} (m : UniqueSecondaryMap κ V) (k : KeyData) : Option V :=
  List.lookup k m.entries

/-- Source `get`: tag check then sparse lookup. -/
def get {κ V} (m : UniqueSecondaryMap κ V) (index : UniqueId κ) : Option V :=
  (m.check_key index).bind (fun key => m.inner_get key)

/-- Source `get_mut` reads the same entry as `get`. -/
def get_mut {κ V} (m : UniqueSecondaryMap κ V) (index : UniqueId κ) :
    Option V :=
  (m.check_key index).bind (fun key => m.inner_get key)

/-- Source `remove`: tag check, then drop the binding, returning it if present. -/
def remove {κ V} (m : UniqueSecondaryMap κ V) (index : UniqueId κ) :
    Option V × UniqueSecondaryMap κ V :=
  match m.check_key index with
  | none => (none, m)
  | some key =>
      match List.lookup key m.entries with
      | some v =>
          (some v, ⟨m.entries.eraseP (fun e => e.1 == key), m.id⟩)
      | none => (none, m)

/-- Source `insert(key, value)`: a tag mismatch is fatal (`.error`, the panic
path); otherwise store the binding and return the prior value for that
key, if any. -/
def insert {κ V} (m : UniqueSecondaryMap κ V) (key : UniqueId κ) (value : V) :
    Except String (Option V × UniqueSecondaryMap κ V) :=
  match m.check_key key with
  | some k =>
      .ok (List.lookup k m.entries,
        ⟨(k, value) :: m.entries.eraseP (fun e => e.1 == k), m.id⟩)
  | none => .error "Attempted to insert key from another map"

/-- Source `contains_key`: tag check, then presence of the binding. -/
def contains_key {κ V} (m : UniqueSecondaryMap κ V) (index : UniqueId κ) :
    Bool :=
  match m.check_key index with
  | some key => (m.inner_get key).isSome
  | none => false

end UniqueSecondaryMap

/-- Source `AnyParameterId { Input(InputId), Output(OutputId) }`. -/
inductive AnyParameterId where
  | Input : InputId → AnyParameterId
  | Output : OutputId → AnyParameterId
deriving DecidableEq, Repr

namespace AnyParameterId

/-- Source `assume_input`: extract the `Input` payload; on the `Output`
variant, panic (`.error`) reporting the actual variant's handle. -/
def assume_input : AnyParameterId → Except OutputId InputId
  | .Input input => .ok input
  | .Output output => .error output

/-- Source `assume_output`: extract the `Output` payload; on the `Input`
variant, panic (`.error`) reporting the actual variant's handle. -/
def assume_output : AnyParameterId → Except InputId OutputId
  | .Output output => .ok output
  | .Input input => .error input

/-- Source `From<InputId> for AnyParameterId`. -/
def from_input (input : InputId) : AnyParameterId := .Input input

/-- Source `From<OutputId> for AnyParameterId`. -/
def from_output (output : OutputId) : AnyParameterId := .Output output

end AnyParameterId

/-- Well-formedness of the free list: every index on it names an
in-range, vacant slot.  Maps built by the constructor and the operations
above maintain this. -/
def SlotMap.freeOk {V : Type} (m : SlotMap V) : Bool :=
  m.free.all (fun i =>
    match m.slots[i]? with
    | some s => s.val.isNone
    | none => false)

/-- Free-list well-formedness lifted to the tagged wrapper. -/
def UniqueSlotmap.freeOk {κ V} (m : UniqueSlotmap κ V) : Bool :=
  m.map.freeOk

/-- A later mutation on a primary map: an insert or a removal, the
operations that can recycle or vacate slots. -/
inductive Op (κ : KeyKind) (V : Type) where
  | ins : V → Op κ V
  | rem : UniqueId κ → Op κ V

/-- Apply one operation to a primary map (keeping only the new state). -/
def applyOp {κ : KeyKind} {V : Type} (m : UniqueSlotmap κ V) :
    Op κ V → UniqueSlotmap κ V
  | .ins v => (m.insert v).2
  | .rem h => (m.remove h).2

/-- Apply a sequence of operations, left to right. -/
def applyOps {κ : KeyKind} {V : Type} (m : UniqueSlotmap κ V) :
    List (Op κ V) → UniqueSlotmap κ V
  | [] => m
  | op :: ops => applyOps (applyOp m op) ops

/-- A key is dead in a slot store when its slot exists but has moved to
a strictly larger generation: the key can never match again. -/
def SlotMap.deadKey {V : Type} (m : SlotMap V) (k : KeyData) : Prop :=
  ∃ s, m.slots[k.idx]? = some s ∧ k.gen < s.gen

/-- Concrete fixture: an empty primary map with tag 0, used by the
witness theorems. -/
def mapA : UniqueSlotmap .node Nat := ⟨⟨[], []⟩, 0⟩

/-- Concrete fixture: an empty primary map with tag 1. -/
def mapB : UniqueSlotmap .node Nat := ⟨⟨[], []⟩, 1⟩

/-- Concrete fixture: an empty secondary map bound to tag 0. -/
def secA : UniqueSecondaryMap .node Nat := ⟨[], 0⟩

/-- Concrete fixture: a one-entry primary map with tag 0. -/
def mapC : UniqueSlotmap .node Nat := (mapA.insert 3).2

/-- A factory reading the handle's slot index, for the C5 witness. -/
def facF : UniqueId .node → Nat := fun h => h.key.idx

/-- A different factory agreeing with `facF` on the first handle of an
empty map, for the C5 witness. -/
def facG : UniqueId .node → Nat := fun h => h.key.idx + h.key.gen

section Helpers

variable {V : Type}

lemma lt_length_of_getElem?_eq_some {α : Type _} {l : List α} {i : Nat}
    {a : α} (h : l[i]? = some a) : i < l.length := by
  by_contra hc
  rw [List.getElem?_eq_none (Nat.le_of_not_lt hc)] at h
  exact Option.noConfusion h

/-- The value freshly inserted by `insert_with_key` is found under the
returned key and equals the factory applied to that key. -/
lemma SlotMap.get_insert_with_key_self (m : SlotMap V) (f : KeyData → V) :
    (m.insert_with_key f).2.get (m.insert_with_key f).1
      = some (f (m.insert_with_key f).1) := by
  obtain ⟨slots, free⟩ := m
  rcases free with _ | ⟨i, rest⟩
  · simp [SlotMap.insert_with_key, SlotMap.get, List.getElem?_concat_length]
  · rcases hslot : slots[i]? with _ | s
    · simp [SlotMap.insert_with_key, SlotMap.get, hslot,
        List.getElem?_concat_length]
    · have hi : i < slots.length := lt_length_of_getElem?_eq_some hslot
      simp [SlotMap.insert_with_key, SlotMap.get, hslot,
        List.getElem?_set_eq_of_lt _ hi]

/-- The key returned by `insert_with_key` does not depend on the factory. -/
lemma SlotMap.insert_with_key_fst_congr (m : SlotMap V)
    (f g : KeyData → V) :
    (m.insert_with_key f).1 = (m.insert_with_key g).1 := by
  obtain ⟨slots, free⟩ := m
  rcases free with _ | ⟨i, rest⟩
  · rfl
  · rcases hslot : slots[i]? with _ | s <;>
      simp [SlotMap.insert_with_key, hslot]

/-- The `insert_with_key` operation consults the factory only at the returned key:
two factories agreeing there produce identical results. -/
lemma SlotMap.insert_with_key_congr (m : SlotMap V) (f g : KeyData → V)
    (h : f (m.insert_with_key f).1 = g (m.insert_with_key g).1) :
    m.insert_with_key f = m.insert_with_key g := by
  obtain ⟨slots, free⟩ := m
  rcases free with _ | ⟨i, rest⟩
  · simp only [SlotMap.insert_with_key] at h ⊢
    rw [h]
  · rcases hslot : slots[i]? with _ | s <;>
      simp only [SlotMap.insert_with_key, hslot] at h ⊢ <;> rw [h]

end Helpers

section UniqueHelpers

variable {κ : KeyKind} {V : Type}

/-- Tagged version: the freshly inserted value is found under the
returned handle. -/
lemma UniqueSlotmap.get_insert_with_handle_self (m : UniqueSlotmap κ V)
    (f : UniqueId κ → V) :
    (m.insert_with_key f).2.get (m.insert_with_key f).1
      = some (f (m.insert_with_key f).1) := by
  unfold UniqueSlotmap.insert_with_key UniqueSlotmap.get
    UniqueSlotmap.check_key
  simp only [if_pos rfl, Option.bind_some]
  exact m.map.get_insert_with_key_self (fun k => f ⟨k, m.id⟩)

/-- Tagged version: the inserted value is found under the returned
handle. -/
lemma UniqueSlotmap.get_insert_self (m : UniqueSlotmap κ V) (v : V) :
    (m.insert v).2.get (m.insert v).1 = some v := by
  exact m.get_insert_with_handle_self (fun _ => v)

/-- Tagged version: the map contains the handle it just returned. -/
lemma UniqueSlotmap.contains_insert_self (m : UniqueSlotmap κ V) (v : V) :
    (m.insert v).2.contains_key (m.insert v).1 = true := by
  have h := m.get_insert_self v
  unfold UniqueSlotmap.get at h
  unfold UniqueSlotmap.contains_key
  rcases hc : (m.insert v).2.check_key (m.insert v).1 with _ | key
  · rw [hc] at h
    exact Option.noConfusion h
  · rw [hc] at h
    simp only [Option.some_bind] at h
    simp [SlotMap.contains_key, h]

end UniqueHelpers

/-- C1: inserting `v` into a primary map yields a handle `h` such that,
immediately afterwards, `get h = Some v` and `contains_key h` is true. -/
theorem C1_insert_get_contains {κ : KeyKind} {V : Type}
    (m : UniqueSlotmap κ V) (v : V) :
    (m.insert v).2.get (m.insert v).1 = some v ∧
      (m.insert v).2.contains_key (m.insert v).1 = true :=
  ⟨m.get_insert_self v, m.contains_insert_self v⟩

section MoreHelpers

variable {κ : KeyKind} {V : Type}

/-- The handle returned by `insert` carries the map's tag. -/
lemma UniqueSlotmap.insert_fst_mapId (m : UniqueSlotmap κ V) (v : V) :
    (m.insert v).1.mapId = m.id := rfl

/-- A `remove` that returns `none` leaves the slot store untouched. -/
lemma SlotMap.remove_eq_self_of_none (m : SlotMap V) (k : KeyData)
    (h : (m.remove k).1 = none) : (m.remove k).2 = m := by
  unfold SlotMap.remove at h ⊢
  rcases hslot : m.slots[k.idx]? with _ | s
  · simp only [hslot]
  · simp only [hslot] at h ⊢
    by_cases hg : s.gen = k.gen
    · simp only [if_pos hg] at h ⊢
      rcases hv : s.val with _ | v
      · simp only [hv]
      · simp only [hv] at h
        exact Option.noConfusion h
    · simp only [if_neg hg]

/-- A primary-map `remove` that returns `none` leaves the map untouched. -/
lemma UniqueSlotmap.primary_remove_eq_self_of_none (m : UniqueSlotmap κ V)
    (i : UniqueId κ) (h : (m.remove i).1 = none) : (m.remove i).2 = m := by
  unfold UniqueSlotmap.remove at h ⊢
  rcases hc : m.check_key i with _ | key
  · simp only [hc]
  · simp only [hc] at h ⊢
    rw [m.map.remove_eq_self_of_none key h]

/-- A secondary-map `remove` that returns `none` leaves the map
untouched. -/
lemma UniqueSecondaryMap.secondary_remove_eq_self_of_none
    (s : UniqueSecondaryMap κ V) (i : UniqueId κ)
    (h : (s.remove i).1 = none) : (s.remove i).2 = s := by
  unfold UniqueSecondaryMap.remove at h ⊢
  rcases hc : s.check_key i with _ | key
  · simp only [hc]
  · simp only [hc] at h ⊢
    rcases hl : List.lookup key s.entries with _ | v
    · simp only [hl]
    · simp only [hl] at h
      exact Option.noConfusion h

end MoreHelpers

/-- C2: two primary maps of the same kind with distinct instance tags
are isolated — a handle minted by `A.insert` reads as `none` from `B.get`
and takes the tag-mismatch panic path through `B.index`. -/
theorem C2_cross_map_isolation {κ : KeyKind} {V : Type}
    (A B : UniqueSlotmap κ V) (hne : A.id ≠ B.id) (x : V) :
    B.get (A.insert x).1 = none ∧
      B.index (A.insert x).1
        = .error "Attempted to access key from another map" := by
  have hm : (A.insert x).1.mapId = A.id := rfl
  constructor
  · simp [UniqueSlotmap.get, UniqueSlotmap.check_key, hm, hne]
  · simp [UniqueSlotmap.index, UniqueSlotmap.check_key, hm, hne]

/-- Witness for C2 at concrete maps with tags 0 and 1. -/
theorem C2_cross_map_isolation_witness :
    mapB.get (mapA.insert 5).1 = none ∧
      mapB.index (mapA.insert 5).1
        = .error "Attempted to access key from another map" :=
  C2_cross_map_isolation mapA mapB (by decide) 5

/-- C3: a secondary map bound to primary map `A` panics on `insert`
keyed by a handle whose tag differs from `A`'s, and on a matching-tag
handle stores the value and returns the prior binding, if any. -/
theorem C3_secondary_insert {κ : KeyKind} {V V2 : Type}
    (s : UniqueSecondaryMap κ V) (A : UniqueSlotmap κ V2)
    (hb : s.id = A.id) (hbad hgood : UniqueId κ) (v w : V)
    (hm1 : hbad.mapId ≠ A.id) (hm2 : hgood.mapId = A.id) :
    s.insert hbad v = .error "Attempted to insert key from another map" ∧
      ∃ s2, s.insert hgood w = .ok (s.get hgood, s2) ∧
        s2.get hgood = some w := by
  rw [← hb] at hm1 hm2
  constructor
  · simp [UniqueSecondaryMap.insert, UniqueSecondaryMap.check_key, hm1]
  · refine ⟨⟨(hgood.key, w) :: s.entries.eraseP (fun e => e.1 == hgood.key),
      s.id⟩, ?_, ?_⟩
    · simp [UniqueSecondaryMap.insert, UniqueSecondaryMap.get,
        UniqueSecondaryMap.check_key, UniqueSecondaryMap.inner_get, hm2]
    · simp [UniqueSecondaryMap.get, UniqueSecondaryMap.check_key,
        UniqueSecondaryMap.inner_get, hm2, List.lookup]

/-- Witness for C3: `secA` (bound to `mapA`, tag 0) rejects a handle
tagged 1 and accepts a handle tagged 0. -/
theorem C3_secondary_insert_witness :
    secA.insert ⟨⟨0, 0⟩, 1⟩ 7
        = .error "Attempted to insert key from another map" ∧
      ∃ s2, secA.insert ⟨⟨0, 0⟩, 0⟩ 9
          = .ok (secA.get ⟨⟨0, 0⟩, 0⟩, s2) ∧
        s2.get ⟨⟨0, 0⟩, 0⟩ = some 9 :=
  C3_secondary_insert secA mapA (by decide) ⟨⟨0, 0⟩, 1⟩ ⟨⟨0, 0⟩, 0⟩ 7 9
    (by decide) (by decide)

/-- C8: wrapping an `InputId` in `AnyParameterId` and narrowing back
with `assume_input` returns it; `assume_output` on the same value is the
panic path and reports the input handle — and symmetrically for
`OutputId`. -/
theorem C8_any_parameter_roundtrip (x : InputId) (y : OutputId) :
    (AnyParameterId.from_input x).assume_input = .ok x ∧
      (AnyParameterId.from_input x).assume_output = .error x ∧
      (AnyParameterId.from_output y).assume_output = .ok y ∧
      (AnyParameterId.from_output y).assume_input = .error y :=
  ⟨rfl, rfl, rfl, rfl⟩

/-- C9: `clone` copies the instance tag, so handles minted by the
original pass the clone's tag check and the clone answers `get` exactly
as the original does. -/
theorem C9_clone_keeps_tag {κ : KeyKind} {V : Type}
    (m : UniqueSlotmap κ V) (h : UniqueId κ) :
    m.clone.id = m.id ∧
      (h.mapId = m.id → m.clone.check_key h = some h.key) ∧
      m.clone.get h = m.get h := by
  refine ⟨rfl, ?_, rfl⟩
  intro hm
  simp [UniqueSlotmap.clone, UniqueSlotmap.check_key, hm]

/-- Witness for C9 at a concrete map and matching-tag handle. -/
theorem C9_clone_keeps_tag_witness :
    mapA.clone.id = mapA.id ∧
      mapA.clone.check_key ⟨⟨0, 0⟩, 0⟩ = some (⟨0, 0⟩ : KeyData) ∧
      mapA.clone.get ⟨⟨0, 0⟩, 0⟩ = mapA.get ⟨⟨0, 0⟩, 0⟩ := by
  have h := C9_clone_keeps_tag mapA ⟨⟨0, 0⟩, 0⟩
  exact ⟨h.1, h.2.1 (by decide), h.2.2⟩

/-- C10: the non-panicking accessors are total (they are embedded as
plain `Option`/`Bool`-valued functions, mirroring the panic-free source
paths), and a `remove` that reports absence (`none`) leaves the map —
primary or secondary — completely unchanged. -/
theorem C10_absence_is_atomic {κ κ2 : KeyKind} {V V2 : Type}
    (m : UniqueSlotmap κ V) (s : UniqueSecondaryMap κ2 V2)
    (hp : UniqueId κ) (hs : UniqueId κ2)
    (h1 : (m.remove hp).1 = none) (h2 : (s.remove hs).1 = none) :
    (m.remove hp).2 = m ∧ (s.remove hs).2 = s :=
  ⟨m.primary_remove_eq_self_of_none hp h1, s.secondary_remove_eq_self_of_none hs h2⟩

/-- Witness for C10 at concrete maps where both removes miss. -/
theorem C10_absence_is_atomic_witness :
    (mapA.remove ⟨⟨0, 0⟩, 1⟩).2 = mapA ∧
      (secA.remove ⟨⟨0, 0⟩, 0⟩).2 = secA :=
  C10_absence_is_atomic mapA secA ⟨⟨0, 0⟩, 1⟩ ⟨⟨0, 0⟩, 0⟩
    (by decide) (by decide)

/-- C5: `insert_with_key` stores the factory's value under the handle it
returns, that value is the factory applied to the returned handle, and
the factory is consulted only at that handle — two factories agreeing on
the returned handle yield identical results, so the factory is invoked
exactly once, with the final handle. -/
theorem C5_insert_with_handle_factory {κ : KeyKind} {V : Type}
    (m : UniqueSlotmap κ V) (f : UniqueId κ → V) :
    (m.insert_with_key f).2.get (m.insert_with_key f).1
        = some (f (m.insert_with_key f).1) ∧
      ∀ g : UniqueId κ → V,
        g (m.insert_with_key f).1 = f (m.insert_with_key f).1 →
          m.insert_with_key g = m.insert_with_key f := by
  refine ⟨m.get_insert_with_handle_self f, ?_⟩
  intro g hg
  have hfst := m.map.insert_with_key_fst_congr
    (fun k => g ⟨k, m.id⟩) (fun k => f ⟨k, m.id⟩)
  have hinner : m.map.insert_with_key (fun k => g ⟨k, m.id⟩)
      = m.map.insert_with_key (fun k => f ⟨k, m.id⟩) := by
    apply SlotMap.insert_with_key_congr
    rw [hfst]
    exact hg
  unfold UniqueSlotmap.insert_with_key
  rw [hinner]

/-- Witness for C5 at a concrete map and two concrete factories that
agree on the returned handle. -/
theorem C5_insert_with_handle_factory_witness :
    (mapA.insert_with_key facF).2.get (mapA.insert_with_key facF).1
        = some (facF (mapA.insert_with_key facF).1) ∧
      mapA.insert_with_key facG = mapA.insert_with_key facF :=
  ⟨(C5_insert_with_handle_factory mapA facF).1,
    (C5_insert_with_handle_factory mapA facF).2 facG (by decide)⟩

/-- C6: every handle a primary map hands out — from `insert`,
`insert_with_key`, `keys`, `iter`, or `iter_mut` — carries the map's
instance tag and passes the map's own tag check. -/
theorem C6_returned_handles_carry_tag {κ : KeyKind} {V : Type}
    (m : UniqueSlotmap κ V) (v : V) (f : UniqueId κ → V) :
    (m.insert v).1.mapId = m.id ∧
      (m.insert v).2.check_key (m.insert v).1 = some (m.insert v).1.key ∧
      (m.insert_with_key f).1.mapId = m.id ∧
      (m.insert_with_key f).2.check_key (m.insert_with_key f).1
        = some (m.insert_with_key f).1.key ∧
      (∀ h ∈ m.keys, h.mapId = m.id ∧ m.check_key h = some h.key) ∧
      (∀ p ∈ m.iter, p.1.mapId = m.id ∧ m.check_key p.1 = some p.1.key) ∧
      (∀ p ∈ m.iter_mut, p.1.mapId = m.id ∧
        m.check_key p.1 = some p.1.key) := by
  refine ⟨rfl, ?_, rfl, ?_, ?_, ?_, ?_⟩
  · simp [UniqueSlotmap.insert, UniqueSlotmap.insert_with_key,
      UniqueSlotmap.check_key]
  · simp [UniqueSlotmap.insert_with_key, UniqueSlotmap.check_key]
  · intro h hmem
    obtain ⟨k, _, rfl⟩ := List.mem_map.mp hmem
    exact ⟨rfl, by simp [UniqueSlotmap.check_key]⟩
  · intro p hmem
    obtain ⟨q, _, rfl⟩ := List.mem_map.mp hmem
    exact ⟨rfl, by simp [UniqueSlotmap.check_key]⟩
  · intro p hmem
    obtain ⟨q, _, rfl⟩ := List.mem_map.mp hmem
    exact ⟨rfl, by simp [UniqueSlotmap.check_key]⟩

/-- Witness for C6 at a concrete one-entry map, with concrete members of
`keys`, `iter` and `iter_mut`. -/
theorem C6_returned_handles_carry_tag_witness :
    (mapC.insert 4).1.mapId = mapC.id ∧
      (mapC.insert 4).2.check_key (mapC.insert 4).1
        = some (mapC.insert 4).1.key ∧
      ((⟨⟨0, 0⟩, 0⟩ : UniqueId .node).mapId = mapC.id ∧
        mapC.check_key ⟨⟨0, 0⟩, 0⟩ = some (⟨0, 0⟩ : KeyData)) ∧
      ((⟨⟨0, 0⟩, 0⟩ : UniqueId .node).mapId = mapC.id ∧
        mapC.check_key ⟨⟨0, 0⟩, 0⟩ = some (⟨0, 0⟩ : KeyData)) := by
  have h := C6_returned_handles_carry_tag mapC 4 facF
  refine ⟨h.1, h.2.1, ?_, ?_⟩
  · exact h.2.2.2.2.1 ⟨⟨0, 0⟩, 0⟩ (by decide)
  · exact h.2.2.2.2.2.1 (⟨⟨0, 0⟩, 0⟩, 3) (by decide)

section FrameHelpers

variable {V : Type}

/-- Setting a slot to one with the same occupancy leaves the occupied
count unchanged. -/
lemma countP_set_congr {α : Type _} (p : α → Bool) :
    ∀ (l : List α) (i : Nat) (a b : α), l[i]? = some b → p a = p b →
      (l.set i a).countP p = l.countP p
  | [], _, _, _, h, _ => by simp at h
  | x :: xs, 0, a, b, h, hp => by
      simp only [List.getElem?_cons_zero, Option.some.injEq] at h
      subst h
      simp [List.countP_cons, hp]
  | x :: xs, i + 1, a, b, h, hp => by
      simp only [List.getElem?_cons_succ] at h
      simp [List.countP_cons, countP_set_congr p xs i a b h hp]

/-- The head of a well-formed free list names an in-range vacant slot. -/
lemma SlotMap.freeOk_head {m : SlotMap V} {i : Nat} {rest : List Nat}
    (hwf : m.freeOk = true) (hfree : m.free = i :: rest) :
    ∃ s, m.slots[i]? = some s ∧ s.val = none := by
  unfold SlotMap.freeOk at hwf
  rw [hfree] at hwf
  simp only [List.all_cons, Bool.and_eq_true] at hwf
  rcases hslot : m.slots[i]? with _ | s
  · rw [hslot] at hwf
    exact absurd hwf.1 (by simp)
  · rw [hslot] at hwf
    refine ⟨s, rfl, ?_⟩
    have := hwf.1
    simpa [Option.isNone_iff_eq_none] using this

/-- The `get` operation ignores the free list and does not see a vacant slot appended
at the end. -/
lemma SlotMap.get_append_vacant (slots : List (Slot V))
    (fr fr2 : List Nat) (g : Nat) (k : KeyData) :
    SlotMap.get ⟨slots ++ [⟨g, none⟩], fr⟩ k
      = SlotMap.get ⟨slots, fr2⟩ k := by
  unfold SlotMap.get
  rcases Nat.lt_trichotomy k.idx slots.length with hlt | heq | hgt
  · rw [List.getElem?_append_left hlt]
  · rw [heq, List.getElem?_concat_length,
      List.getElem?_eq_none (Nat.le_refl _)]
    simp
  · have h1 : (slots ++ [(⟨g, none⟩ : Slot V)]).length ≤ k.idx := by
      simp only [List.length_append, List.length_cons, List.length_nil]
      omega
    rw [List.getElem?_eq_none h1, List.getElem?_eq_none (Nat.le_of_lt hgt)]

/-- The `get` operation does not see a vacant slot being replaced by another vacant
slot (of any generation). -/
lemma SlotMap.get_set_vacant (slots : List (Slot V)) (fr fr2 : List Nat)
    (i : Nat) (s : Slot V) (g : Nat) (hslot : slots[i]? = some s)
    (hv : s.val = none) (k : KeyData) :
    SlotMap.get ⟨slots.set i ⟨g, none⟩, fr⟩ k
      = SlotMap.get ⟨slots, fr2⟩ k := by
  unfold SlotMap.get
  by_cases hk : k.idx = i
  · have hi : i < slots.length := lt_length_of_getElem?_eq_some hslot
    rw [hk, List.getElem?_set_eq_of_lt _ hi, hslot]
    simp [hv]
  · rw [List.getElem?_set_ne (Ne.symm hk)]

/-- The insert-then-remove round trip at the slot-store level: the
inserted value comes back, the occupied count is restored, and every
lookup answers as before. -/
lemma SlotMap.insert_remove_roundtrip (m : SlotMap V) (v : V)
    (hwf : m.freeOk = true) :
    ((m.insert v).2.remove (m.insert v).1).1 = some v ∧
      ((m.insert v).2.remove (m.insert v).1).2.len = m.len ∧
      ∀ k : KeyData,
        ((m.insert v).2.remove (m.insert v).1).2.get k = m.get k := by
  obtain ⟨slots, free⟩ := m
  rcases free with _ | ⟨i, rest⟩
  · -- empty free list: a fresh slot is appended at generation 0
    have hins : (SlotMap.insert ⟨slots, []⟩ v)
        = (⟨slots.length, 0⟩, ⟨slots ++ [⟨0, some v⟩], []⟩) := rfl
    rw [hins]
    have hrem :
        (SlotMap.remove ⟨slots ++ [⟨0, some v⟩], []⟩ ⟨slots.length, 0⟩)
          = (some v, ⟨slots ++ [⟨1, none⟩], [slots.length]⟩) := by
      unfold SlotMap.remove
      simp [List.getElem?_concat_length, List.set_append]
    rw [hrem]
    refine ⟨rfl, ?_, ?_⟩
    · simp only [SlotMap.len]
      simp [List.countP_append, List.countP_cons]
    · intro k
      exact SlotMap.get_append_vacant slots _ [] 1 k
  · -- free-list reuse: the head slot is vacant by well-formedness
    obtain ⟨s, hslot, hv⟩ :=
      SlotMap.freeOk_head (m := ⟨slots, i :: rest⟩) hwf rfl
    have hi : i < slots.length := lt_length_of_getElem?_eq_some hslot
    have hins : (SlotMap.insert ⟨slots, i :: rest⟩ v)
        = (⟨i, s.gen⟩, ⟨slots.set i ⟨s.gen, some v⟩, rest⟩) := by
      unfold SlotMap.insert SlotMap.insert_with_key
      simp [hslot]
    rw [hins]
    have hrem :
        (SlotMap.remove ⟨slots.set i ⟨s.gen, some v⟩, rest⟩ ⟨i, s.gen⟩)
          = (some v, ⟨slots.set i ⟨s.gen + 1, none⟩, i :: rest⟩) := by
      unfold SlotMap.remove
      simp [List.getElem?_set_eq_of_lt _ hi, List.set_set]
    rw [hrem]
    refine ⟨rfl, ?_, ?_⟩
    · simp only [SlotMap.len]
      exact countP_set_congr _ slots i _ s hslot (by rw [hv])
    · intro k
      exact SlotMap.get_set_vacant slots _ (i :: rest) i s (s.gen + 1)
        hslot hv k

/-- Lifting: removing a same-tag handle acts as the slot-store remove. -/
lemma UniqueSlotmap.remove_tagged {κ : KeyKind} (m : SlotMap V)
    (id : MapId) (k : KeyData) :
    (⟨m, id⟩ : UniqueSlotmap κ V).remove ⟨k, id⟩
      = ((m.remove k).1, ⟨(m.remove k).2, id⟩) := by
  unfold UniqueSlotmap.remove UniqueSlotmap.check_key
  simp

/-- Lifting: two maps with the same tag whose stores answer `get`
identically answer tagged `get` identically on every handle. -/
lemma UniqueSlotmap.get_congr_inner {κ : KeyKind} (m1 m2 : SlotMap V)
    (id : MapId) (hg : ∀ k, m1.get k = m2.get k) (h : UniqueId κ) :
    (⟨m1, id⟩ : UniqueSlotmap κ V).get h
      = (⟨m2, id⟩ : UniqueSlotmap κ V).get h := by
  unfold UniqueSlotmap.get UniqueSlotmap.check_key
  by_cases hm : h.mapId = id
  · simp [hm, hg]
  · simp [hm]

end FrameHelpers

/-- C7: removing a freshly inserted value returns exactly that value,
restores the map's length, and leaves every lookup — hence every other
live handle's value — exactly as before the insert. -/
theorem C7_insert_remove_frame {κ : KeyKind} {V : Type}
    (m : UniqueSlotmap κ V) (v : V) (hwf : m.freeOk = true) :
    ((m.insert v).2.remove (m.insert v).1).1 = some v ∧
      ((m.insert v).2.remove (m.insert v).1).2.len = m.len ∧
      ∀ h : UniqueId κ,
        ((m.insert v).2.remove (m.insert v).1).2.get h = m.get h := by
  have hbase := m.map.insert_remove_roundtrip v hwf
  have hins : m.insert v
      = (⟨(m.map.insert v).1, m.id⟩, ⟨(m.map.insert v).2, m.id⟩) := rfl
  rw [hins, UniqueSlotmap.remove_tagged]
  refine ⟨hbase.1, hbase.2.1, ?_⟩
  intro h
  exact UniqueSlotmap.get_congr_inner _ m.map m.id
    (fun k => hbase.2.2 k) h

/-- Witness for C7 at a concrete one-entry map and a concrete probe
handle. -/
theorem C7_insert_remove_frame_witness :
    ((mapC.insert 8).2.remove (mapC.insert 8).1).1 = some 8 ∧
      ((mapC.insert 8).2.remove (mapC.insert 8).1).2.len = mapC.len ∧
      ((mapC.insert 8).2.remove (mapC.insert 8).1).2.get ⟨⟨0, 0⟩, 0⟩
        = mapC.get ⟨⟨0, 0⟩, 0⟩ := by
  have h := C7_insert_remove_frame mapC 8 (by decide)
  exact ⟨h.1, h.2.1, h.2.2 ⟨⟨0, 0⟩, 0⟩⟩

section DeadKey

variable {V : Type}

/-- A dead key reads as `none`. -/
lemma SlotMap.deadKey_get (m : SlotMap V) (k : KeyData)
    (hd : m.deadKey k) : m.get k = none := by
  obtain ⟨s, hs, hg⟩ := hd
  unfold SlotMap.get
  rw [hs]
  have hne : s.gen ≠ k.gen := by omega
  simp [hne]

/-- A successful removal leaves its own key dead. -/
lemma SlotMap.deadKey_remove_self (m : SlotMap V) (k : KeyData) (v : V)
    (h : (m.remove k).1 = some v) : (m.remove k).2.deadKey k := by
  unfold SlotMap.remove at h ⊢
  rcases hslot : m.slots[k.idx]? with _ | s
  · simp [hslot] at h
  · simp only [hslot] at h ⊢
    by_cases hg : s.gen = k.gen
    · simp only [if_pos hg] at h ⊢
      rcases hv : s.val with _ | w
      · simp [hv] at h
      · simp only [hv]
        refine ⟨⟨s.gen + 1, none⟩, ?_, by dsimp only; omega⟩
        rw [List.getElem?_set_eq_of_lt _ (lt_length_of_getElem?_eq_some hslot)]
    · simp [if_neg hg] at h

/-- Dead keys stay dead across `insert_with_key`: slot reuse keeps the
reused slot's generation, and appending does not touch existing slots. -/
lemma SlotMap.deadKey_insert_with_key (m : SlotMap V) (f : KeyData → V)
    (k : KeyData) (hd : m.deadKey k) :
    (m.insert_with_key f).2.deadKey k := by
  obtain ⟨s, hs, hg⟩ := hd
  have hk : k.idx < m.slots.length := lt_length_of_getElem?_eq_some hs
  obtain ⟨slots, free⟩ := m
  rcases free with _ | ⟨i, rest⟩
  · refine ⟨s, ?_, hg⟩
    simp only [SlotMap.insert_with_key]
    rw [List.getElem?_append_left hk]
    exact hs
  · rcases hslot : slots[i]? with _ | s'
    · refine ⟨s, ?_, hg⟩
      simp only [SlotMap.insert_with_key, hslot]
      rw [List.getElem?_append_left hk]
      exact hs
    · by_cases hki : k.idx = i
      · refine ⟨⟨s'.gen, some (f ⟨i, s'.gen⟩)⟩, ?_, ?_⟩
        · simp only [SlotMap.insert_with_key, hslot]
          rw [hki, List.getElem?_set_eq_of_lt]
          exact lt_length_of_getElem?_eq_some hslot
        · rw [hki, hslot] at hs
          cases hs
          exact hg
      · refine ⟨s, ?_, hg⟩
        simp only [SlotMap.insert_with_key, hslot]
        rw [List.getElem?_set_ne (Ne.symm hki)]
        exact hs

/-- Dead keys stay dead across `remove`: a removal elsewhere does not
touch the slot, and a removal on the same slot only bumps its
generation further. -/
lemma SlotMap.deadKey_remove (m : SlotMap V) (k2 k : KeyData)
    (hd : m.deadKey k) : (m.remove k2).2.deadKey k := by
  obtain ⟨s, hs, hg⟩ := hd
  unfold SlotMap.remove
  rcases hslot : m.slots[k2.idx]? with _ | s2
  · simp only [hslot]
    exact ⟨s, hs, hg⟩
  · simp only [hslot]
    by_cases hgen : s2.gen = k2.gen
    · simp only [if_pos hgen]
      rcases hval : s2.val with _ | w
      · simp only [hval]
        exact ⟨s, hs, hg⟩
      · simp only [hval]
        by_cases hki : k.idx = k2.idx
        · refine ⟨⟨s2.gen + 1, none⟩, ?_, ?_⟩
          · rw [hki,
              List.getElem?_set_eq_of_lt _ (lt_length_of_getElem?_eq_some hslot)]
          · rw [hki, hslot] at hs
            cases hs
            dsimp only
            omega
        · refine ⟨s, ?_, hg⟩
          rw [List.getElem?_set_ne (Ne.symm hki)]
          exact hs
    · simp only [if_neg hgen]
      exact ⟨s, hs, hg⟩

end DeadKey

section DeadKeyTagged

variable {κ : KeyKind} {V : Type}

/-- One tagged operation preserves dead keys of the underlying store. -/
lemma UniqueSlotmap.deadKey_applyOp (m : UniqueSlotmap κ V)
    (k : KeyData) (hd : m.map.deadKey k) (op : Op κ V) :
    (applyOp m op).map.deadKey k := by
  cases op with
  | ins v => exact m.map.deadKey_insert_with_key _ k hd
  | rem h =>
      unfold applyOp UniqueSlotmap.remove
      rcases hc : m.check_key h with _ | key
      · simp only [hc]
        exact hd
      · simp only [hc]
        exact m.map.deadKey_remove key k hd

/-- A sequence of tagged operations preserves dead keys. -/
lemma UniqueSlotmap.deadKey_applyOps :
    ∀ (ops : List (Op κ V)) (m : UniqueSlotmap κ V) (k : KeyData),
      m.map.deadKey k → (applyOps m ops).map.deadKey k
  | [], _, _, hd => hd
  | op :: ops, m, k, hd =>
      UniqueSlotmap.deadKey_applyOps ops (applyOp m op) k
        (m.deadKey_applyOp k hd op)

/-- A dead underlying key reads as `none` through the tagged `get`,
whatever the handle's tag. -/
lemma UniqueSlotmap.get_eq_none_of_dead (m : UniqueSlotmap κ V)
    (h : UniqueId κ) (hd : m.map.deadKey h.key) : m.get h = none := by
  unfold UniqueSlotmap.get UniqueSlotmap.check_key
  by_cases hm : h.mapId = m.id
  · simp [hm, SlotMap.deadKey_get _ _ hd]
  · simp [hm]

/-- A dead underlying key is reported as absent by the tagged
`contains_key`, whatever the handle's tag. -/
lemma UniqueSlotmap.contains_eq_false_of_dead (m : UniqueSlotmap κ V)
    (h : UniqueId κ) (hd : m.map.deadKey h.key) :
    m.contains_key h = false := by
  unfold UniqueSlotmap.contains_key
  rcases hc : m.check_key h with _ | key
  · simp only [hc]
  · simp only [hc]
    have hkey : key = h.key := by
      unfold UniqueSlotmap.check_key at hc
      split at hc
      · cases hc
        rfl
      · exact Option.noConfusion hc
    subst hkey
    unfold SlotMap.contains_key
    rw [SlotMap.deadKey_get _ _ hd]
    rfl

end DeadKeyTagged

/-- C4: once a handle has been successfully removed, `get` answers
`none` and `contains_key` answers `false` in every later state reachable
by inserts and removes — slot reuse cannot revive it, because the slot's
generation has strictly increased — while a later insert's fresh handle
still reads back its new value. -/
theorem C4_removed_handle_never_revives {κ : KeyKind} {V : Type}
    (m : UniqueSlotmap κ V) (h : UniqueId κ) (v : V)
    (hrem : (m.remove h).1 = some v) (ops : List (Op κ V)) (y : V) :
    (applyOps (m.remove h).2 ops).get h = none ∧
      (applyOps (m.remove h).2 ops).contains_key h = false ∧
      ((applyOps (m.remove h).2 ops).insert y).2.get
          ((applyOps (m.remove h).2 ops).insert y).1 = some y := by
  have hck : m.check_key h = some h.key := by
    unfold UniqueSlotmap.check_key
    by_cases hm : h.mapId = m.id
    · rw [if_pos hm]
    · exfalso
      unfold UniqueSlotmap.remove UniqueSlotmap.check_key at hrem
      rw [if_neg hm] at hrem
      exact Option.noConfusion hrem
  have hrem2 : (m.map.remove h.key).1 = some v := by
    unfold UniqueSlotmap.remove at hrem
    rw [hck] at hrem
    exact hrem
  have hstate : (m.remove h).2 = ⟨(m.map.remove h.key).2, m.id⟩ := by
    unfold UniqueSlotmap.remove
    rw [hck]
  have hdead0 : (m.remove h).2.map.deadKey h.key := by
    rw [hstate]
    exact m.map.deadKey_remove_self h.key v hrem2
  have hdead :=
    UniqueSlotmap.deadKey_applyOps ops ((m.remove h).2) h.key hdead0
  exact ⟨UniqueSlotmap.get_eq_none_of_dead _ h hdead,
    UniqueSlotmap.contains_eq_false_of_dead _ h hdead,
    UniqueSlotmap.get_insert_self _ y⟩

/-- Witness for C4: remove the only entry of a concrete map, then run a
later insert that reuses the slot. -/
theorem C4_removed_handle_never_revives_witness :
    (applyOps (mapC.remove ⟨⟨0, 0⟩, 0⟩).2 [Op.ins 11]).get ⟨⟨0, 0⟩, 0⟩
        = none ∧
      (applyOps (mapC.remove ⟨⟨0, 0⟩, 0⟩).2
          [Op.ins 11]).contains_key ⟨⟨0, 0⟩, 0⟩ = false ∧
      ((applyOps (mapC.remove ⟨⟨0, 0⟩, 0⟩).2 [Op.ins 11]).insert 12).2.get
          ((applyOps (mapC.remove ⟨⟨0, 0⟩, 0⟩).2 [Op.ins 11]).insert 12).1
        = some 12 :=
  C4_removed_handle_never_revives mapC ⟨⟨0, 0⟩, 0⟩ 3 (by decide)
    [Op.ins 11] 12

end EguiNodeGraph
